import Mathlib

/-!
A shallow embedding of the `mat` lunch-menu aggregator (`mat.py`) and its
specification-level counterparts, with theorems settling the spec claims.

Strings are modelled as `List Char` (Python `str` compares and slices by
code point, which `List Char` mirrors exactly).  Python exceptions are
modelled with `Except`; `datetime.date` is a year/month/day record with the
proleptic-Gregorian ISO-calendar functions reimplemented from the
`datetime` semantics the code relies on.
-/

abbrev Str := List Char

/-- A raised Python exception: type name and message. -/
structure PyExc where
  excName : Str
  msg : Str
deriving DecidableEq, Repr

/-- `traceback.format_exc()`: some diagnostic trace string derived from the
exception.  Its exact contents are irrelevant to every claim; we model it as
a function of the exception. -/
def format_exc (e : PyExc) : Str := e.excName ++ [':', ' '] ++ e.msg

/-- A `datetime.date`: proleptic Gregorian year/month/day. -/
structure Date where
  year : Nat
  month : Nat
  day : Nat
deriving DecidableEq, Repr

/-- Python `str.strip()` whitespace: space, tab, newline, carriage return,
vertical tab, form feed. -/
def isPySpace (c : Char) : Bool :=
  c == ' ' || c == '\t' || c == '\n' || c == '\r' || c == Char.ofNat 11 || c == Char.ofNat 12

/-- Python `str.strip()`: drop leading and trailing whitespace. -/
def pystrip (s : Str) : Str :=
  ((s.dropWhile isPySpace).reverse.dropWhile isPySpace).reverse

/-- Python `str.replace('\n', ' ')`: every newline becomes one space. -/
def replaceNewlines (s : Str) : Str :=
  s.map (fun c => if c == '\n' then ' ' else c)

/-- `mat.py` `truncate(max_length, str)`:
`str[:max_length] + '...'` when `len(str) > max_length`, else `str`. -/
def truncate (max_length : Nat) (s : Str) : Str :=
  if s.length > max_length then s.take max_length ++ ['.', '.', '.'] else s

/-- The `Food` entity: `title` and `description`, each possibly `None`. -/
structure Food where
  title : Option Str
  description : Option Str
deriving DecidableEq, Repr

/-- `Food.__init__`: the title, when truthy (non-`None`, non-empty), is
stripped, has newlines replaced by spaces, and is passed through
`truncate 100`; the description, when truthy, is stripped. -/
def mkFood (title description : Option Str) : Food :=
  { title :=
      match title with
      | none => none
      | some t => if t.isEmpty then some t
                  else some (truncate 100 (replaceNewlines (pystrip t)))
    description :=
      match description with
      | none => none
      | some d => if d.isEmpty then some d else some (pystrip d) }

/-- The `Restaurant` entity. -/
structure Restaurant where
  name : Str
  dishes : List Food
  error : Option PyExc
  errorTrace : Option Str
deriving DecidableEq, Repr

/-- A loaded plugin: `name()` and `food(api, date)`, either of which may
raise. -/
structure Plugin where
  name : Except PyExc Str
  food : Date → Except PyExc (List Food)

/-! ## Title inference (`Mat.infer_title`) -/

def INFERRED_TITLE_MAX_LENGTH : Nat := 50

/-- The character class of the regex `[ .,-:;!]`.  Inside a class `,-:` is a
range, so this is space, period, every code point from `,` (44) through `:`
(58), semicolon and exclamation mark. -/
def inClass (c : Char) : Bool :=
  c == ' ' || c == '.' || (',' ≤ c && c ≤ ':') || c == ';' || c == '!'

/-- Does `t`, taken whole, match `C+[^ ]+` (one or more class characters
followed by one or more non-space characters)? -/
def suffixMatch (C : Char → Bool) (t : Str) : Bool :=
  (List.range t.length).any fun j =>
    decide (0 < j) && (t.take j).all C && (t.drop j).all (fun c => !(c == ' '))

/-- `re.sub(C+[^ ]+$, "", s)`: Python finds the leftmost start position from
which the pattern matches through to the end of the string and deletes that
suffix; when no position matches, `s` is unchanged. -/
def stripTrailingRun (C : Char → Bool) (s : Str) : Str :=
  match (List.range s.length).find? (fun i => suffixMatch C (s.drop i)) with
  | some i => s.take i
  | none => s

/-- `Mat.infer_title`. -/
def infer_title (description : Str) : Str :=
  if description.length > INFERRED_TITLE_MAX_LENGTH then
    let truncated_description := pystrip (description.take (INFERRED_TITLE_MAX_LENGTH - 3))
    if description[INFERRED_TITLE_MAX_LENGTH - 2]? = some ' ' then
      truncated_description ++ ['.', '.', '.']
    else
      stripTrailingRun inClass truncated_description ++ ['.', '.', '.']
  else description

/-- Claim C5's punctuation set, read off the claim's words: exactly
space, period, comma, hyphen, colon, semicolon, exclamation mark. -/
def claimTitleClass (c : Char) : Bool :=
  c == ' ' || c == '.' || c == ',' || c == '-' || c == ':' || c == ';' || c == '!'

/-- Claim C5's description of `inferTitle` on inputs longer than 50:
`head` is the first 47 characters trimmed; if the character at index 48 of
the original is a space return `head + "..."`, else strip the trailing
punctuation-then-word run (using the claim's punctuation set) and append
`"..."`. -/
def inferTitleClaimed (description : Str) : Str :=
  let head := pystrip (description.take 47)
  if description[48]? = some ' ' then head ++ ['.', '.', '.']
  else stripTrailingRun claimTitleClass head ++ ['.', '.', '.']

/-- The amended punctuation set: space, semicolon, exclamation mark, and
every character from comma (44) through colon (58) — i.e. comma, hyphen,
period, slash, the ten digits and colon. -/
def amendedTitleClass (c : Char) : Bool :=
  c == ' ' || c == ';' || c == '!' || (',' ≤ c && c ≤ ':')

/-- Claim C5 as amended: same procedure, with the amended punctuation set. -/
def inferTitleAmended (description : Str) : Str :=
  let head := pystrip (description.take 47)
  if description[48]? = some ' ' then head ++ ['.', '.', '.']
  else stripTrailingRun amendedTitleClass head ++ ['.', '.', '.']

/-! ## The ISO calendar (`datetime.date`, as used by `FoodAPI`) -/

def isLeap (y : Nat) : Bool :=
  y % 4 == 0 && (y % 100 != 0 || y % 400 == 0)

def daysInMonth (y m : Nat) : Nat :=
  if m = 2 then (if isLeap y then 29 else 28)
  else if m = 4 ∨ m = 6 ∨ m = 9 ∨ m = 11 then 30
  else 31

/-- Days in year `y` before the first of month `m`. -/
def daysBeforeMonth (y m : Nat) : Nat :=
  (List.range (m - 1)).foldl (fun acc i => acc + daysInMonth y (i + 1)) 0

/-- 1-based ordinal of the date within its year. -/
def dayOfYear (dt : Date) : Nat :=
  daysBeforeMonth dt.year dt.month + dt.day

/-- Days before January 1 of year `y` in the proleptic Gregorian calendar. -/
def daysBeforeYear (y : Nat) : Nat :=
  let n := y - 1
  365 * n + n / 4 + n / 400 - n / 100

/-- `date.toordinal()`: January 1 of year 1 is day 1. -/
def toOrdinal (dt : Date) : Nat :=
  daysBeforeYear dt.year + dayOfYear dt

/-- `date.isoweekday()`: Monday = 1 … Sunday = 7 (day 1 is a Monday). -/
def isoweekday (dt : Date) : Nat :=
  (toOrdinal dt - 1) % 7 + 1

/-- ISO weekday of January 1 of year `y`. -/
def jan1Weekday (y : Nat) : Nat :=
  isoweekday ⟨y, 1, 1⟩

/-- Number of ISO weeks in ISO year `y`: 53 when Jan 1 falls on Thursday, or
on Wednesday in a leap year; else 52. -/
def weeksInYear (y : Nat) : Nat :=
  if jan1Weekday y = 4 ∨ (isLeap y = true ∧ jan1Weekday y = 3) then 53 else 52

/-- `date.isocalendar()`, restricted to its (ISO year, ISO week) pair. -/
def isocalendar (dt : Date) : Nat × Nat :=
  let w := (dayOfYear dt + 10 - isoweekday dt) / 7
  if w = 0 then (dt.year - 1, weeksInYear (dt.year - 1))
  else if w = 53 ∧ weeksInYear dt.year = 52 then (dt.year + 1, 1)
  else (dt.year, w)

/-- `FoodAPI.week_of`: `date.isocalendar()[1]`, the ISO week number alone. -/
def week_of (dt : Date) : Nat :=
  (isocalendar dt).2

/-- `FoodAPI.is_current_week(date)`; `today` models the value of
`datetime.date.today()` at call time. -/
def is_current_week (today dt : Date) : Bool :=
  week_of dt == week_of today

/-- The spec's notion "d lies in the same ISO week as the current date":
equal (ISO year, ISO week) pairs. -/
def sameISOWeek (a b : Date) : Prop :=
  isocalendar a = isocalendar b

instance (a b : Date) : Decidable (sameISOWeek a b) := by
  unfold sameISOWeek
  infer_instance

/-! ## The aggregator (`Mat`) -/

/-- The comparison used by `sorted(…, key=lambda r: r.name)`: Python string
comparison is case-sensitive lexicographic by code point, which is the lex
order on `List Char`. -/
def byName (a b : Restaurant) : Prop :=
  a.name ≤ b.name

instance : DecidableRel byName :=
  fun a b => inferInstanceAs (Decidable (a.name ≤ b.name))

instance : IsTotal Restaurant byName :=
  ⟨fun a b => le_total a.name b.name⟩

instance : IsTrans Restaurant byName :=
  ⟨fun _ _ _ h1 h2 => le_trans h1 h2⟩

/-- `Mat.make_resturant` (the source's spelling): `plugin.name()` runs
outside the `try`, `plugin.food(foodAPI, date)` inside it. -/
def make_resturant (p : Plugin) (d : Date) : Except PyExc Restaurant :=
  match p.name with
  | .error e => .error e
  | .ok n =>
    match p.food d with
    | .ok ds => .ok ⟨n, ds, none, none⟩
    | .error e => .ok ⟨n, [], some e, some (format_exc e)⟩

/-- Consuming the plugin generator through
`sorted(filter(map(make_resturant, plugins)))`: each plugin yields a
restaurant until one raises; the result is the raised error or the full
restaurant list, paired with the plugins the generator has not yielded. -/
def consume : List Plugin → Date → Except PyExc (List Restaurant) × List Plugin
  | [], _ => (.ok [], [])
  | p :: ps, d =>
    match make_resturant p d with
    | .error e => (.error e, ps)
    | .ok r =>
      match consume ps d with
      | (.ok rs, rem) => (.ok (r :: rs), rem)
      | (.error e, rem) => (.error e, rem)

/-- The filter of `get_dishes`: `r.dishes or (not quiet and r.error != None)`. -/
def keep (quiet : Bool) (r : Restaurant) : Bool :=
  !r.dishes.isEmpty || (!quiet && r.error.isSome)

/-- `Mat.get_dishes`.  `allPlugins` is what `_load_plugins` would yield (the
plugin files in filename-sort order); `st` models `self._plugins`: `none`
before the first call (Python `None`, falsy), `some rem` a generator object
(always truthy) with `rem` still to yield.  Returns the result paired with
the new `self._plugins` state. -/
def get_dishes (allPlugins : List Plugin) (quiet : Bool) (st : Option (List Plugin))
    (d : Date) : Except PyExc (List Restaurant) × Option (List Plugin) :=
  let gen := st.getD allPlugins
  let r := consume gen d
  (r.1.map (fun lst => List.insertionSort byName (lst.filter (keep quiet))), some r.2)

deriving instance DecidableEq for Except

/-! ## Concrete values used by counterexamples and witnesses -/

def exc0 : PyExc := ⟨['E'], ['m']⟩

/-- A plugin named `p` serving one dish. -/
def pluginA : Plugin := ⟨.ok ['p'], fun _ => .ok [⟨some ['t'], none⟩]⟩

/-- A plugin named `b` serving one dish. -/
def goodPlugin : Plugin := ⟨.ok ['b'], fun _ => .ok [⟨some ['t'], none⟩]⟩

/-- A plugin named `a` serving one dish. -/
def goodPlugin2 : Plugin := ⟨.ok ['a'], fun _ => .ok [⟨some ['u'], none⟩]⟩

/-- A plugin named `c` whose `food` raises. -/
def failFood : Plugin := ⟨.ok ['c'], fun _ => .error exc0⟩

/-- A plugin whose `name()` raises. -/
def failName : Plugin := ⟨.error exc0, fun _ => .ok []⟩

def d0 : Date := ⟨2026, 1, 1⟩

/-- The C5 counterexample description: 44 `a`s, then `7bb`, then 13 `c`s
(length 60; the character at index 48 is `c`, not a space). -/
def c5input : Str := List.replicate 44 'a' ++ ['7', 'b', 'b'] ++ List.replicate 13 'c'

/-! ## Helper lemmas -/

theorem pystrip_length_le (s : Str) : (pystrip s).length ≤ s.length := by
  have h1 := (List.dropWhile_suffix (l := s) isPySpace).sublist.length_le
  have h2 := (List.dropWhile_suffix (l := (s.dropWhile isPySpace).reverse) isPySpace).sublist.length_le
  simp only [pystrip, List.length_reverse] at *
  omega

theorem stripTrailingRun_length_le (C : Char → Bool) (s : Str) :
    (stripTrailingRun C s).length ≤ s.length := by
  unfold stripTrailingRun
  cases h : (List.range s.length).find? (fun i => suffixMatch C (s.drop i)) with
  | none => simp
  | some i => simp [List.length_take]

/-! ## Claims C6 and C7: length bound and identity on short inputs -/

/-- C6: for every input string, the string returned by `infer_title` has at
most 50 characters. -/
theorem infer_title_length_le (description : Str) :
    (infer_title description).length ≤ 50 := by
  unfold infer_title
  split
  case isTrue h =>
    have hp := pystrip_length_le (description.take (INFERRED_TITLE_MAX_LENGTH - 3))
    have hs := stripTrailingRun_length_le inClass
      (pystrip (description.take (INFERRED_TITLE_MAX_LENGTH - 3)))
    have ht : (description.take (INFERRED_TITLE_MAX_LENGTH - 3)).length ≤ 47 := by
      simp [List.length_take, INFERRED_TITLE_MAX_LENGTH]
    split <;> simp only [List.length_append] <;> simp <;> omega
  case isFalse h =>
    simp only [INFERRED_TITLE_MAX_LENGTH, Nat.not_lt] at h
    omega

/-- C7: for every description of length at most 50, `infer_title` returns
the description unchanged. -/
theorem infer_title_short (description : Str) (h : description.length ≤ 50) :
    infer_title description = description := by
  unfold infer_title
  rw [if_neg]
  simp only [INFERRED_TITLE_MAX_LENGTH, Nat.not_lt]
  omega

/-- Witness for C7 at the spec's example `"Soup of the day"`. -/
theorem infer_title_short_witness :
    "Soup of the day".toList.length ≤ 50 ∧
      infer_title "Soup of the day".toList = "Soup of the day".toList :=
  ⟨by decide, infer_title_short "Soup of the day".toList (by decide)⟩

/-! ## Claim C5: the long-description branch of `infer_title` -/

/-- Counterexample to C5: on 44 `a`s followed by `7bb` and 13 `c`s the
regex class (which contains the digits, via the range `,-:`) strips `7bb`,
while the claim's punctuation set (which lacks `7`) would leave the head
unchanged. -/
theorem infer_title_claimed_counterexample :
    inferTitleClaimed c5input ≠ infer_title c5input ∧
      infer_title c5input = List.replicate 44 'a' ++ ['.', '.', '.'] ∧
      inferTitleClaimed c5input
        = List.replicate 44 'a' ++ ['7', 'b', 'b', '.', '.', '.'] := by
  refine ⟨by decide, by decide, by decide⟩

theorem titleClass_eq (c : Char) : inClass c = amendedTitleClass c := by
  rw [Bool.eq_iff_iff]
  simp only [inClass, amendedTitleClass, Bool.or_eq_true, beq_iff_eq,
    Bool.and_eq_true, decide_eq_true_eq]
  constructor
  · rintro ((((h | h) | h) | h) | h)
    · tauto
    · refine Or.inr ⟨?_, ?_⟩ <;> rw [h] <;> decide
    · tauto
    · tauto
    · tauto
  · rintro (((h | h) | h) | h) <;> tauto

/-- C5 (amended): on descriptions longer than 50 characters, `infer_title`
behaves as the claim describes once the punctuation set is corrected to
space, semicolon, exclamation mark and the code points from comma (44)
through colon (58). -/
theorem infer_title_long (description : Str) (h : description.length > 50) :
    infer_title description = inferTitleAmended description := by
  have hC : inClass = amendedTitleClass := funext titleClass_eq
  unfold infer_title inferTitleAmended
  rw [if_pos (by simpa [INFERRED_TITLE_MAX_LENGTH] using h), hC]
  rfl

/-- Witness for C5 (amended) at the spec's instance of 60 identical
characters: the result is the first 47 characters plus `"..."`. -/
theorem infer_title_long_witness :
    (List.replicate 60 'A').length > 50 ∧
      infer_title (List.replicate 60 'A') = inferTitleAmended (List.replicate 60 'A') ∧
      inferTitleAmended (List.replicate 60 'A')
        = List.replicate 47 'A' ++ ['.', '.', '.'] :=
  ⟨by decide, infer_title_long (List.replicate 60 'A') (by decide), by decide⟩

/-! ## Claim C9: `is_current_week` -/

/-- Counterexample to C9: 2025-10-13 and 2026-10-12 are both in ISO week 42
of their respective ISO years, so `is_current_week` answers `true` across a
year boundary even though they are not the same ISO week. -/
theorem is_current_week_counterexample :
    is_current_week ⟨2026, 10, 12⟩ ⟨2025, 10, 13⟩ = true ∧
      ¬ sameISOWeek ⟨2025, 10, 13⟩ ⟨2026, 10, 12⟩ := by
  refine ⟨by decide, by decide⟩

/-- C9 (amended): `is_current_week` answers `true` exactly when the queried
date's ISO week number equals the current date's ISO week number, with the
ISO year ignored; in particular a date in the same ISO week as the current
date is always answered `true`. -/
theorem is_current_week_iff (today d : Date) :
    (is_current_week today d = true ↔ week_of d = week_of today) ∧
      (sameISOWeek d today → is_current_week today d = true) := by
  constructor
  · simp [is_current_week]
  · intro h
    simp only [is_current_week, beq_iff_eq, week_of]
    rw [h]

/-! ## Claim C8: `Food.__init__` normalization -/

theorem head?_not_of_dropWhile {α : Type} (p : α → Bool) (l : List α) (c : α)
    (h : (l.dropWhile p).head? = some c) : p c = false := by
  have hd := List.head?_dropWhile_not p l
  rw [h] at hd
  exact hd

theorem head?_pystrip (s : Str) (c : Char) (h : (pystrip s).head? = some c) :
    isPySpace c = false := by
  obtain ⟨t, ht⟩ := List.dropWhile_suffix (l := (s.dropWhile isPySpace).reverse) isPySpace
  have hrev : pystrip s ++ t.reverse = s.dropWhile isPySpace := by
    have h2 := congrArg List.reverse ht
    simpa [pystrip, List.reverse_append] using h2
  have hne : pystrip s ≠ [] := by
    intro hnil
    rw [hnil] at h
    simp at h
  have hA : (s.dropWhile isPySpace).head? = some c := by
    rw [← hrev, List.head?_append_of_ne_nil _ hne, h]
  exact head?_not_of_dropWhile _ _ _ hA

theorem getLast?_pystrip (s : Str) (c : Char) (h : (pystrip s).getLast? = some c) :
    isPySpace c = false := by
  unfold pystrip at h
  rw [List.getLast?_reverse] at h
  exact head?_not_of_dropWhile _ _ _ h

theorem newline_isPySpace : isPySpace '\n' = true := by decide

theorem replaceNewlines_head? (l : Str) (c : Char)
    (h : (replaceNewlines l).head? = some c) :
    ∃ c0, l.head? = some c0 ∧ (if c0 = '\n' then ' ' else c0) = c := by
  unfold replaceNewlines at h
  rw [List.head?_map] at h
  cases hl : l.head? with
  | none => rw [hl] at h; simp at h
  | some c0 => rw [hl] at h; simp at h; exact ⟨c0, rfl, h⟩

theorem replaceNewlines_getLast? (l : Str) (c : Char)
    (h : (replaceNewlines l).getLast? = some c) :
    ∃ c0, l.getLast? = some c0 ∧ (if c0 = '\n' then ' ' else c0) = c := by
  unfold replaceNewlines at h
  rw [List.getLast?_map] at h
  cases hl : l.getLast? with
  | none => rw [hl] at h; simp at h
  | some c0 => rw [hl] at h; simp at h; exact ⟨c0, rfl, h⟩

/-- The stored title of a `Food` built from a truthy title. -/
theorem storedTitle_boundary (t : Str) :
    ∀ c, ((replaceNewlines (pystrip t)).head? = some c → isPySpace c = false) ∧
      ((replaceNewlines (pystrip t)).getLast? = some c → isPySpace c = false) := by
  intro c
  constructor
  · intro h
    obtain ⟨c0, hc0, hcc⟩ := replaceNewlines_head? _ _ h
    have hs := head?_pystrip t c0 hc0
    have : c0 ≠ '\n' := by
      intro hn
      rw [hn, newline_isPySpace] at hs
      exact Bool.noConfusion hs
    rw [if_neg this] at hcc
    rw [← hcc]
    exact hs
  · intro h
    obtain ⟨c0, hc0, hcc⟩ := replaceNewlines_getLast? _ _ h
    have hs := getLast?_pystrip t c0 hc0
    have : c0 ≠ '\n' := by
      intro hn
      rw [hn, newline_isPySpace] at hs
      exact Bool.noConfusion hs
    rw [if_neg this] at hcc
    rw [← hcc]
    exact hs

theorem replaceNewlines_no_newline (l : Str) : ∀ c ∈ replaceNewlines l, c ≠ '\n' := by
  intro c hc
  unfold replaceNewlines at hc
  obtain ⟨c0, _, hc0⟩ := List.mem_map.mp hc
  by_cases h : c0 = '\n'
  · rw [← hc0, h]
    simp
  · rw [← hc0, if_neg (by simpa using h)]
    exact h

/-- Counterexample to C8: a 101-character title is stored as its first 100
characters plus the three-character marker, 103 characters in all, so the
stored title can exceed 100 characters. -/
theorem mkFood_title_cap_counterexample :
    (mkFood (some (List.replicate 101 'a')) (some ['d'])).title
      = some (List.replicate 100 'a' ++ ['.', '.', '.']) ∧
      ¬ (List.replicate 100 'a' ++ ['.', '.', '.']).length ≤ 100 := by
  refine ⟨by decide, by decide⟩

/-- C8 (amended): a `Food` built from non-empty title and description
stores a title with no newline, no leading or trailing whitespace and at
most 103 characters (100 plus the three-character truncation marker), and
stores the description trimmed. -/
theorem mkFood_normalized (t d : Str) (ht : t ≠ []) (hd : d ≠ []) :
    ∃ T, (mkFood (some t) (some d)).title = some T ∧
      T.length ≤ 103 ∧
      (∀ c ∈ T, c ≠ '\n') ∧
      (∀ c, T.head? = some c → isPySpace c = false) ∧
      (∀ c, T.getLast? = some c → isPySpace c = false) ∧
      (mkFood (some t) (some d)).description = some (pystrip d) := by
  have htE : t.isEmpty = false := by simpa [List.isEmpty_iff] using ht
  have hdE : d.isEmpty = false := by simpa [List.isEmpty_iff] using hd
  refine ⟨truncate 100 (replaceNewlines (pystrip t)), ?_, ?_, ?_, ?_, ?_, ?_⟩
  · simp [mkFood, htE]
  · unfold truncate
    split
    case isTrue h =>
      rw [List.length_append, List.length_take]
      simp only [List.length_cons, List.length_nil]
      omega
    case isFalse h => omega
  · intro c hc
    unfold truncate at hc
    split at hc
    · rcases List.mem_append.mp hc with h | h
      · exact replaceNewlines_no_newline _ c (List.take_subset _ _ h)
      · intro hn; rw [hn] at h; simp at h
    · exact replaceNewlines_no_newline _ c hc
  · intro c hc
    unfold truncate at hc
    split at hc
    case isTrue h =>
      have hne : (replaceNewlines (pystrip t)).take 100 ≠ [] := by
        have hl : ((replaceNewlines (pystrip t)).take 100).length = 100 := by
          rw [List.length_take]
          omega
        intro hnil
        rw [hnil] at hl
        simp at hl
      rw [List.head?_append_of_ne_nil _ hne, List.head?_take, if_neg (by omega)] at hc
      exact (storedTitle_boundary t c).1 hc
    case isFalse h =>
      exact (storedTitle_boundary t c).1 hc
  · intro c hc
    unfold truncate at hc
    split at hc
    case isTrue h =>
      have : (replaceNewlines (pystrip t)).take 100 ++ ['.', '.', '.']
          = ((replaceNewlines (pystrip t)).take 100 ++ ['.', '.']) ++ ['.'] := by
        simp
      rw [this, List.getLast?_concat] at hc
      have hcd : c = '.' := by simpa using hc.symm
      rw [hcd]
      decide
    case isFalse h =>
      exact (storedTitle_boundary t c).2 hc
  · simp [mkFood, hdE]

/-- Witness for C8 (amended) at a one-character title and description. -/
theorem mkFood_normalized_witness :
    (['T'] : Str) ≠ [] ∧ (['D'] : Str) ≠ [] ∧
      ∃ T, (mkFood (some ['T']) (some ['D'])).title = some T ∧
        T.length ≤ 103 ∧
        (∀ c ∈ T, c ≠ '\n') ∧
        (∀ c, T.head? = some c → isPySpace c = false) ∧
        (∀ c, T.getLast? = some c → isPySpace c = false) ∧
        (mkFood (some ['T']) (some ['D'])).description = some (pystrip ['D']) :=
  ⟨by decide, by decide, mkFood_normalized ['T'] ['D'] (by decide) (by decide)⟩

/-! ## Aggregator lemmas -/

theorem consume_cons_ok (p : Plugin) (ps : List Plugin) (d : Date) (r : Restaurant)
    (h : make_resturant p d = .ok r) :
    consume (p :: ps) d =
      match consume ps d with
      | (.ok rs, rem) => (.ok (r :: rs), rem)
      | (.error e, rem) => (.error e, rem) := by
  simp only [consume, h]

theorem consume_cons_error (p : Plugin) (ps : List Plugin) (d : Date) (e : PyExc)
    (h : make_resturant p d = .error e) :
    consume (p :: ps) d = (.error e, ps) := by
  simp only [consume, h]

theorem make_resturant_ok (p : Plugin) (d : Date) (n : Str) (hn : p.name = .ok n) :
    ∃ r, make_resturant p d = .ok r := by
  unfold make_resturant
  rw [hn]
  cases p.food d with
  | ok ds => exact ⟨_, rfl⟩
  | error e => exact ⟨_, rfl⟩

theorem make_resturant_cases (p : Plugin) (d : Date) (r : Restaurant)
    (h : make_resturant p d = .ok r) :
    p.name = .ok r.name ∧
      ((p.food d = .ok r.dishes ∧ r.error = none ∧ r.errorTrace = none) ∨
        (∃ e, p.food d = .error e ∧ r.dishes = [] ∧ r.error = some e ∧
          r.errorTrace = some (format_exc e))) := by
  unfold make_resturant at h
  cases hn : p.name with
  | error e => rw [hn] at h; simp at h
  | ok n =>
    rw [hn] at h
    cases hf : p.food d with
    | ok ds =>
      rw [hf] at h
      have hr : r = ⟨n, ds, none, none⟩ := by simpa using h.symm
      subst hr
      exact ⟨rfl, Or.inl ⟨rfl, rfl, rfl⟩⟩
    | error e =>
      rw [hf] at h
      have hr : r = ⟨n, [], some e, some (format_exc e)⟩ := by simpa using h.symm
      subst hr
      exact ⟨rfl, Or.inr ⟨e, rfl, rfl, rfl, rfl⟩⟩

theorem consume_ok (ps : List Plugin) (d : Date) :
    ∀ lst rem, consume ps d = (.ok lst, rem) →
      List.Forall₂ (fun p r => make_resturant p d = .ok r) ps lst ∧ rem = [] := by
  induction ps with
  | nil =>
    intro lst rem h
    simp only [consume, Prod.mk.injEq] at h
    obtain ⟨h1, h2⟩ := h
    obtain rfl : [] = lst := by simpa using h1
    exact ⟨List.Forall₂.nil, h2.symm⟩
  | cons p ps ih =>
    intro lst rem h
    cases hm : make_resturant p d with
    | error e =>
      rw [consume_cons_error p ps d e hm] at h
      simp at h
    | ok r =>
      rw [consume_cons_ok p ps d r hm] at h
      cases hc : consume ps d with
      | mk res rem2 =>
        rw [hc] at h
        cases res with
        | error e => simp at h
        | ok rs =>
          simp only [Prod.mk.injEq, Except.ok.injEq] at h
          obtain ⟨h1, h2⟩ := h
          obtain ⟨hf, hrem⟩ := ih rs rem2 hc
          subst h2
          rw [← h1]
          exact ⟨List.Forall₂.cons hm hf, hrem⟩

theorem consume_all_ok (ps : List Plugin) (d : Date)
    (h : ∀ p ∈ ps, ∃ n, p.name = .ok n) :
    ∃ lst, consume ps d = (.ok lst, []) ∧
      List.Forall₂ (fun p r => make_resturant p d = .ok r) ps lst := by
  induction ps with
  | nil => exact ⟨[], rfl, List.Forall₂.nil⟩
  | cons p ps ih =>
    obtain ⟨n, hn⟩ := h p (List.mem_cons_self p ps)
    obtain ⟨r, hr⟩ := make_resturant_ok p d n hn
    obtain ⟨lst, hc, hf⟩ := ih (fun x hx => h x (List.mem_cons_of_mem p hx))
    refine ⟨r :: lst, ?_, List.Forall₂.cons hr hf⟩
    rw [consume_cons_ok p ps d r hr, hc]

theorem forall₂_mem_right {α β : Type} {R : α → β → Prop} :
    ∀ {xs : List α} {ys : List β}, List.Forall₂ R xs ys →
      ∀ y ∈ ys, ∃ x ∈ xs, R x y := by
  intro xs ys h
  induction h with
  | nil => intro y hy; simp at hy
  | cons hR hF ih =>
    intro y hy
    rcases List.mem_cons.mp hy with rfl | hy
    · exact ⟨_, List.mem_cons_self _ _, hR⟩
    · obtain ⟨x, hx, hRx⟩ := ih y hy
      exact ⟨x, List.mem_cons_of_mem _ hx, hRx⟩

theorem keep_iff (q : Bool) (r : Restaurant) :
    keep q r = true ↔ (r.dishes ≠ [] ∨ (q = false ∧ r.error ≠ none)) := by
  cases q <;>
    simp [keep, List.isEmpty_iff, Option.isSome_iff_ne_none]

theorem get_dishes_ok (ps : List Plugin) (q : Bool) (d : Date) (rs : List Restaurant)
    (st' : Option (List Plugin)) (h : get_dishes ps q none d = (.ok rs, st')) :
    ∃ lst, consume ps d = (.ok lst, []) ∧
      rs = List.insertionSort byName (lst.filter (keep q)) ∧
      List.Forall₂ (fun p r => make_resturant p d = .ok r) ps lst := by
  simp only [get_dishes, Option.getD_none] at h
  cases hc : consume ps d with
  | mk res rem =>
    rw [hc] at h
    cases res with
    | error e => simp [Except.map] at h
    | ok lst =>
      simp only [Except.map, Prod.mk.injEq, Except.ok.injEq] at h
      obtain ⟨hf, hrem⟩ := consume_ok ps d lst rem hc
      refine ⟨lst, ?_, h.1.symm, hf⟩
      rw [hrem]

/-! ## Claim C1: the plugin cache -/

/-- C1 (code behaviour at the failing input): `_load_plugins` is a
generator and `get_dishes` caches the generator object, not the loaded
list.  With one plugin serving one dish, the first call returns that
plugin's restaurant and leaves `self._plugins` an exhausted generator
(truthy, so never re-scanned), and the second call with the same date
returns the empty sequence instead of the same sequence again. -/
theorem get_dishes_second_call_empty :
    (get_dishes [pluginA] false none d0).1
        = .ok [⟨['p'], [⟨some ['t'], none⟩], none, none⟩] ∧
      (get_dishes [pluginA] false none d0).2 = some [] ∧
      (get_dishes [pluginA] false (get_dishes [pluginA] false none d0).2 d0).1
        = .ok [] := by
  refine ⟨by decide, rfl, by decide⟩

/-! ## Claim C2: sorting -/

/-- C2: a successful `get_dishes` result is sorted ascending by restaurant
name (case-sensitive lexicographic), and is a permutation of the filtered
per-plugin restaurants, each of which carries its dish list exactly as the
plugin returned it (or empty on failure) — no other reordering happens. -/
theorem get_dishes_sorted (ps : List Plugin) (q : Bool) (d : Date)
    (rs : List Restaurant) (st' : Option (List Plugin))
    (h : get_dishes ps q none d = (.ok rs, st')) :
    List.Sorted byName rs ∧
      ∃ lst, List.Forall₂ (fun p r => make_resturant p d = .ok r) ps lst ∧
        rs.Perm (lst.filter (keep q)) ∧
        ∀ r ∈ rs, ∃ p ∈ ps, p.name = .ok r.name ∧
          (p.food d = .ok r.dishes ∨ (r.dishes = [] ∧ r.error.isSome = true)) := by
  obtain ⟨lst, hc, hrs, hf⟩ := get_dishes_ok ps q d rs st' h
  subst hrs
  refine ⟨List.sorted_insertionSort byName _, lst, hf,
    List.perm_insertionSort byName _, ?_⟩
  intro r hr
  have hr2 : r ∈ lst.filter (keep q) :=
    (List.perm_insertionSort byName _).mem_iff.mp hr
  have hmem : r ∈ lst := (List.mem_filter.mp hr2).1
  obtain ⟨p, hp, hpr⟩ := forall₂_mem_right hf r hmem
  obtain ⟨hname, hcases⟩ := make_resturant_cases p d r hpr
  refine ⟨p, hp, hname, ?_⟩
  rcases hcases with ⟨hfood, _, _⟩ | ⟨e, _, hdish, herr, _⟩
  · exact Or.inl hfood
  · right
    rw [hdish, herr]
    exact ⟨rfl, rfl⟩

/-- Witness for C2: two plugins loaded in the order `b`, `a` come back in
the order `a`, `b`, dishes untouched. -/
theorem get_dishes_sorted_witness :
    get_dishes [goodPlugin, goodPlugin2] false none d0
        = (.ok [⟨['a'], [⟨some ['u'], none⟩], none, none⟩,
                ⟨['b'], [⟨some ['t'], none⟩], none, none⟩], some []) ∧
      (List.Sorted byName
          [⟨['a'], [⟨some ['u'], none⟩], none, none⟩,
           ⟨['b'], [⟨some ['t'], none⟩], none, none⟩] ∧
        ∃ lst, List.Forall₂ (fun p r => make_resturant p d0 = .ok r)
            [goodPlugin, goodPlugin2] lst ∧
          List.Perm
            [⟨['a'], [⟨some ['u'], none⟩], none, none⟩,
             ⟨['b'], [⟨some ['t'], none⟩], none, none⟩]
            (lst.filter (keep false)) ∧
          ∀ r ∈ [(⟨['a'], [⟨some ['u'], none⟩], none, none⟩ : Restaurant),
                 ⟨['b'], [⟨some ['t'], none⟩], none, none⟩],
            ∃ p ∈ [goodPlugin, goodPlugin2], p.name = .ok r.name ∧
              (p.food d0 = .ok r.dishes ∨ (r.dishes = [] ∧ r.error.isSome = true))) :=
  ⟨rfl, get_dishes_sorted [goodPlugin, goodPlugin2] false d0 _ (some []) rfl⟩

/-! ## Claim C3: per-plugin failure isolation in `food` -/

/-- C3: when a plugin's `food` raises (and every plugin's `name()`
returns), the aggregation still produces one restaurant per plugin; the
failing plugin's restaurant has empty dishes, the raised error and a
diagnostic trace; and every produced restaurant with an error has empty
dishes. -/
theorem food_failure_isolated (ps : List Plugin) (d : Date) (p : Plugin) (n : Str)
    (e : PyExc) (hp : p ∈ ps) (hn : p.name = .ok n) (hf : p.food d = .error e)
    (hall : ∀ x ∈ ps, ∃ m, x.name = .ok m) :
    ∃ lst, consume ps d = (.ok lst, []) ∧
      lst.length = ps.length ∧
      List.Forall₂ (fun x r => make_resturant x d = .ok r) ps lst ∧
      make_resturant p d = .ok ⟨n, [], some e, some (format_exc e)⟩ ∧
      ∀ r ∈ lst, r.error.isSome = true → r.dishes = [] := by
  obtain ⟨lst, hc, hfa⟩ := consume_all_ok ps d hall
  refine ⟨lst, hc, hfa.length_eq.symm, hfa, ?_, ?_⟩
  · unfold make_resturant
    rw [hn, hf]
  · intro r hr herr
    obtain ⟨x, _, hxr⟩ := forall₂_mem_right hfa r hr
    obtain ⟨_, hcases⟩ := make_resturant_cases x d r hxr
    rcases hcases with ⟨_, hre, _⟩ | ⟨e2, _, hdish, _, _⟩
    · rw [hre] at herr
      simp at herr
    · exact hdish

/-- Witness for C3: three plugins, the middle one failing in `food`. -/
theorem food_failure_isolated_witness :
    failFood ∈ [goodPlugin, failFood, goodPlugin2] ∧
      failFood.name = .ok ['c'] ∧ failFood.food d0 = .error exc0 ∧
      (∀ x ∈ [goodPlugin, failFood, goodPlugin2], ∃ m, x.name = .ok m) ∧
      ∃ lst, consume [goodPlugin, failFood, goodPlugin2] d0 = (.ok lst, []) ∧
        lst.length = ([goodPlugin, failFood, goodPlugin2] : List Plugin).length ∧
        List.Forall₂ (fun x r => make_resturant x d0 = .ok r)
          [goodPlugin, failFood, goodPlugin2] lst ∧
        make_resturant failFood d0
          = .ok ⟨['c'], [], some exc0, some (format_exc exc0)⟩ ∧
        ∀ r ∈ lst, r.error.isSome = true → r.dishes = [] := by
  have hp : failFood ∈ [goodPlugin, failFood, goodPlugin2] :=
    List.mem_cons_of_mem _ (List.mem_cons_self _ _)
  have hall : ∀ x ∈ [goodPlugin, failFood, goodPlugin2], ∃ m, x.name = .ok m := by
    intro x hx
    rcases List.mem_cons.mp hx with rfl | hx
    · exact ⟨['b'], rfl⟩
    rcases List.mem_cons.mp hx with rfl | hx
    · exact ⟨['c'], rfl⟩
    rcases List.mem_cons.mp hx with rfl | hx
    · exact ⟨['a'], rfl⟩
    · exact absurd hx (List.not_mem_nil x)
  exact ⟨hp, rfl, rfl, hall,
    food_failure_isolated [goodPlugin, failFood, goodPlugin2] d0 failFood ['c'] exc0
      hp rfl rfl hall⟩

/-! ## Claim C4: the filter -/

/-- C4: a successful `get_dishes` result keeps a restaurant exactly when it
has at least one dish, or it has an error and `quiet` is not set. -/
theorem get_dishes_filter_iff (ps : List Plugin) (q : Bool) (d : Date)
    (rs : List Restaurant) (st' : Option (List Plugin))
    (h : get_dishes ps q none d = (.ok rs, st')) :
    ∃ lst, consume ps d = (.ok lst, []) ∧
      ∀ r, r ∈ rs ↔ r ∈ lst ∧ (r.dishes ≠ [] ∨ (q = false ∧ r.error ≠ none)) := by
  obtain ⟨lst, hc, hrs, _⟩ := get_dishes_ok ps q d rs st' h
  subst hrs
  refine ⟨lst, hc, fun r => ?_⟩
  rw [(List.perm_insertionSort byName _).mem_iff, List.mem_filter, keep_iff]

/-- Witness for C4: one failing plugin; with `quiet` unset its error-only
restaurant is present in the result. -/
theorem get_dishes_filter_iff_witness :
    get_dishes [failFood] false none d0
        = (.ok [⟨['c'], [], some exc0, some (format_exc exc0)⟩], some []) ∧
      ∃ lst, consume [failFood] d0 = (.ok lst, []) ∧
        ∀ r, r ∈ [(⟨['c'], [], some exc0, some (format_exc exc0)⟩ : Restaurant)]
          ↔ r ∈ lst ∧ (r.dishes ≠ [] ∨ (false = false ∧ r.error ≠ none)) :=
  ⟨rfl, get_dishes_filter_iff [failFood] false d0 _ (some []) rfl⟩

/-! ## Claim C10: a raising `name()` is not isolated -/

/-- C10: `plugin.name()` runs outside the `try` block, so when a plugin's
`name()` raises (all plugins before it being well-behaved), the exception
propagates out of `get_dishes`: the whole pass aborts with that error, the
remaining plugins are skipped (they stay unconsumed in the cached
generator), whatever they would have returned. -/
theorem name_fault_propagates (ps1 ps2 : List Plugin) (p : Plugin) (q : Bool)
    (d : Date) (e : PyExc) (hname : p.name = .error e)
    (hok : ∀ x ∈ ps1, ∃ n, x.name = .ok n) :
    get_dishes (ps1 ++ p :: ps2) q none d = (.error e, some ps2) := by
  have hbad : make_resturant p d = .error e := by
    unfold make_resturant
    rw [hname]
  have key : ∀ l1 : List Plugin, (∀ x ∈ l1, ∃ n, x.name = .ok n) →
      consume (l1 ++ p :: ps2) d = (.error e, ps2) := by
    intro l1
    induction l1 with
    | nil =>
      intro _
      rw [List.nil_append, consume_cons_error p ps2 d e hbad]
    | cons a as ih =>
      intro hok2
      obtain ⟨n, hn⟩ := hok2 a (List.mem_cons_self a as)
      obtain ⟨r, hr⟩ := make_resturant_ok a d n hn
      rw [List.cons_append, consume_cons_ok a _ d r hr,
        ih (fun x hx => hok2 x (List.mem_cons_of_mem a hx))]
  simp only [get_dishes, Option.getD_none]
  rw [key ps1 hok]
  rfl

/-- Witness for C10: a good plugin, then one whose `name()` raises, then
another good plugin; the whole pass errors and the last plugin is skipped. -/
theorem name_fault_propagates_witness :
    failName.name = .error exc0 ∧
      (∀ x ∈ [goodPlugin], ∃ n, x.name = .ok n) ∧
      get_dishes ([goodPlugin] ++ failName :: [goodPlugin2]) false none d0
        = (.error exc0, some [goodPlugin2]) := by
  have hok : ∀ x ∈ [goodPlugin], ∃ n, x.name = .ok n := by
    intro x hx
    rcases List.mem_cons.mp hx with rfl | hx
    · exact ⟨['b'], rfl⟩
    · exact absurd hx (List.not_mem_nil x)
  exact ⟨rfl, hok,
    name_fault_propagates [goodPlugin] [goodPlugin2] failName false d0 exc0 rfl hok⟩

/-- Witness for C9 (amended) at two dates inside ISO week 42 of 2026. -/
theorem is_current_week_iff_witness :
    sameISOWeek ⟨2026, 10, 14⟩ ⟨2026, 10, 12⟩ ∧
      is_current_week ⟨2026, 10, 12⟩ ⟨2026, 10, 14⟩ = true :=
  ⟨by decide, (is_current_week_iff ⟨2026, 10, 12⟩ ⟨2026, 10, 14⟩).2 (by decide)⟩
